import Mathlib

/-!
Verification of the memory-pool accounting layer
(`velox/common/memory/MemoryPool.cpp`).

The shallow embedding below translates the accounting state and the
operations of `MemoryPool` / `MemoryPoolImpl` into pure Lean functions.
Machine `int64_t` values are modelled as `Int` (the C++ `%` on signed
integers is truncated division, `Int.tmod`); `size_t` values as `Nat`
with an explicit `% 2 ^ 64` where overflow can occur.

Collaborators whose code lives outside this translation unit
(`MemoryUsageTracker`, the quota-enforcing `MemoryManager`, `MemoryUsage`,
`MemoryAllocator::alignmentCheck`) are modelled from the specification,
each marked `Modelled from the spec:` in its doc comment.  The external
raw allocator is abstracted as an oracle `Int → Bool` telling, for a
requested byte count, whether `allocateBytes` returns a buffer.
The per-call guards `checkMemoryAllocation` / `checkPoolManagement`
(leaf-kind / management preconditions, declared elsewhere) and the
`subtreeMemoryUsage_` aggregate are outside the claims and not carried
in the state.
-/

/-- The closed pool-kind tag (`MemoryPool::Kind`). -/
inductive Kind where
  | leaf
  | aggregate
deriving DecidableEq, Repr

/-- Typed failures of the accounting layer (spec §7 taxonomy).  In the
source these are `VELOX_CHECK` / `VELOX_MEM_*` raises; here each carries
the payload the corresponding raise formats into its message. -/
inductive MemErr where
  /-- Raised by `VELOX_MEM_MANAGER_CAP_EXCEEDED`: carries the configured quota. -/
  | capacityExceeded (quota : Int)
  /-- a `MemoryUsageTracker.update` denied by a configured local cap. -/
  | localCapExceeded
  /-- Raised by `VELOX_MEM_ALLOC_ERROR`: pool identity, operation name, requested size. -/
  | allocationFailure (pool : String) (op : String) (size : Int)
  /-- Raised by `addChild` on an already-registered name. -/
  | duplicateChild (name : String)
  /-- a fatal internal bookkeeping contradiction (`VELOX_CHECK`). -/
  | invariantViolation
  /-- invalid alignment at construction. -/
  | configurationError
deriving DecidableEq, Repr

deriving instance DecidableEq for Except

/-- Local usage counters of one pool (`MemoryUsage`). -/
structure MemoryUsage where
  currentBytes : Int
  maxBytes : Int
deriving DecidableEq, Repr

/-- Modelled from the spec: `MemoryUsage::incrementCurrentBytes` (class not in
this translation unit).  `localUsage` is `{currentBytes, maxBytes}`; the
increment moves `currentBytes` by `delta` and maintains the high-water
mark `maxBytes`. -/
def MemoryUsage.incrementCurrentBytes (u : MemoryUsage) (delta : Int) : MemoryUsage :=
  let cur := u.currentBytes + delta
  { currentBytes := cur, maxBytes := max u.maxBytes cur }

/-- One `MemoryUsageTracker` node (spec §4.3): current bytes, high-water
mark, monotonic cumulative bytes, allocation count, optional local cap.
The claims only exercise a single tracker node, so the parent link is not
carried. -/
structure MemoryUsageTracker where
  currentBytes : Int
  maxBytes : Int
  cumulativeBytes : Int
  numAllocs : Int
  capacity : Option Int
deriving DecidableEq, Repr

/-- Modelled from the spec: the commit half of `MemoryUsageTracker::update`:
`currentBytes += delta`; if `delta > 0`, `cumulativeBytes += delta` and
`numAllocs += 1`; `maxBytes = max(maxBytes, currentBytes)`. -/
def MemoryUsageTracker.commit (t : MemoryUsageTracker) (delta : Int) : MemoryUsageTracker :=
  let cur := t.currentBytes + delta
  { t with
    currentBytes := cur
    maxBytes := max t.maxBytes cur
    cumulativeBytes := if 0 < delta then t.cumulativeBytes + delta else t.cumulativeBytes
    numAllocs := if 0 < delta then t.numAllocs + 1 else t.numAllocs }

/-- Modelled from the spec: `MemoryUsageTracker::update(delta)` (class not in
this translation unit).  Checks `currentBytes + delta` against the
configured capacity, if any; on a would-be excess it fails without
mutating state, otherwise it commits. -/
def MemoryUsageTracker.update (t : MemoryUsageTracker) (delta : Int) :
    Option MemoryUsageTracker :=
  match t.capacity with
  | some cap => if cap < t.currentBytes + delta then none else some (t.commit delta)
  | none => some (t.commit delta)

/-- The global quota arbiter (spec §4.4, the quota side of `MemoryManager`,
whose code is not in this translation unit): a fixed quota and a shared
`used` counter. -/
structure QuotaManager where
  quota : Int
  used : Int
deriving DecidableEq, Repr

/-- Modelled from the spec: `QuotaManager.reserve(size) -> bool`
(`MemoryManager::reserve`): succeeds and commits iff
`used + size <= quota`; otherwise fails with no side effect. -/
def QuotaManager.reserve (q : QuotaManager) (size : Int) : Bool × QuotaManager :=
  if q.used + size ≤ q.quota then (true, { q with used := q.used + size })
  else (false, q)

/-- Modelled from the spec: `QuotaManager.release(size)`
(`MemoryManager::release`): subtract `size` from `used`.  (`used` going
negative is declared an upstream invariant violation; the counter
operation itself is a plain subtraction.) -/
def QuotaManager.release (q : QuotaManager) (size : Int) : QuotaManager :=
  { q with used := q.used - size }

/-- The accounting state of one `MemoryPoolImpl`: identity, alignment, its
tracker node, its local usage, and the shared quota manager. -/
structure MemoryPoolImpl where
  name : String
  alignment : Int
  memoryUsageTracker : MemoryUsageTracker
  localMemoryUsage : MemoryUsage
  memoryManager : QuotaManager
deriving DecidableEq, Repr

/-- Translation of `MemoryPoolImpl::sizeAlign(size)`: round `size` up to the next multiple
of `alignment` (`remainder = size % alignment;` with C++ truncated `%`). -/
def sizeAlign (alignment size : Int) : Int :=
  let remainder := Int.tmod size alignment
  if remainder = 0 then size else size + alignment - remainder

/-- The pool's own `sizeAlign`, using its configured alignment. -/
def MemoryPoolImpl.align (s : MemoryPoolImpl) (size : Int) : Int :=
  sizeAlign s.alignment size

/-- Translation of `MemoryPoolImpl::release(size)`: `memoryManager_->release(size)`, then
`localMemoryUsage_.incrementCurrentBytes(-size)`, then
`memoryUsageTracker_->update(-size)`.  The returned state is the state at
normal return, or at the raise when the tracker update fails. -/
def MemoryPoolImpl.release (s : MemoryPoolImpl) (size : Int) :
    Except MemErr Unit × MemoryPoolImpl :=
  let s1 := { s with
    memoryManager := s.memoryManager.release size
    localMemoryUsage := s.localMemoryUsage.incrementCurrentBytes (-size) }
  match s1.memoryUsageTracker.update (-size) with
  | some t => (.ok (), { s1 with memoryUsageTracker := t })
  | none => (.error .localCapExceeded, s1)

/-- Translation of `MemoryPoolImpl::reserve(size)`: `memoryUsageTracker_->update(size)`
(fail-fast leaves state untouched), `localMemoryUsage_.incrementCurrentBytes(size)`,
then `memoryManager_->reserve(size)`; on denial, `release(size)` and raise
`VELOX_MEM_MANAGER_CAP_EXCEEDED(memoryManager_->getMemoryQuota())`. -/
def MemoryPoolImpl.reserve (s : MemoryPoolImpl) (size : Int) :
    Except MemErr Unit × MemoryPoolImpl :=
  match s.memoryUsageTracker.update size with
  | none => (.error .localCapExceeded, s)
  | some t =>
    let s1 := { s with
      memoryUsageTracker := t
      localMemoryUsage := s.localMemoryUsage.incrementCurrentBytes size }
    match s1.memoryManager.reserve size with
    | (true, q) => (.ok (), { s1 with memoryManager := q })
    | (false, q) =>
      let s2 := { s1 with memoryManager := q }
      match s2.release size with
      | (.ok _, s3) => (.error (.capacityExceeded s2.memoryManager.quota), s3)
      | (.error e, s3) => (.error e, s3)

/-- Translation of `MemoryPoolImpl::allocate(size)`: align, reserve the aligned size, ask
the allocator oracle for `alignedSize` bytes; on a null buffer, release
the aligned size and raise `VELOX_MEM_ALLOC_ERROR` naming the function,
the requested size and the pool. -/
def MemoryPoolImpl.allocate (s : MemoryPoolImpl) (size : Int) (alloc : Int → Bool) :
    Except MemErr Unit × MemoryPoolImpl :=
  let alignedSize := s.align size
  match s.reserve alignedSize with
  | (.error e, s1) => (.error e, s1)
  | (.ok _, s1) =>
    if alloc alignedSize then (.ok (), s1)
    else
      match s1.release alignedSize with
      | (.ok _, s2) => (.error (.allocationFailure s.name "allocate" size), s2)
      | (.error e, s2) => (.error e, s2)

/-- Translation of `MemoryPoolImpl::free(p, size)`: `allocator_->freeBytes(p, alignedSize)`
(no accounting effect), then `release(alignedSize)`.  The pointer plays no
role in the accounting and is not carried. -/
def MemoryPoolImpl.free (s : MemoryPoolImpl) (size : Int) :
    Except MemErr Unit × MemoryPoolImpl :=
  s.release (s.align size)

/-- What `reallocate` did besides accounting: how many bytes were copied
into the new buffer (`::memcpy(newP, p, min(size, newSize))`), and whether
`free(p, alignedSize)` ran (releasing the old allocation). -/
structure ReallocResult where
  copiedBytes : Option Int
  freedOld : Bool
deriving DecidableEq, Repr

/-- Translation of `MemoryPoolImpl::reallocate(p, size, newSize)`: reserve
`align(newSize)`; ask the allocator for `align(newSize)` bytes; on a null
buffer, `free(p, alignedSize)` then `release(alignedNewSize)` then raise;
on success with null `p`, return the new buffer at once (no copy, no
free); otherwise copy `min(size, newSize)` bytes and `free(p, alignedSize)`. -/
def MemoryPoolImpl.reallocate (s : MemoryPoolImpl) (pNull : Bool)
    (size newSize : Int) (alloc : Int → Bool) :
    Except MemErr ReallocResult × MemoryPoolImpl :=
  let alignedSize := s.align size
  let alignedNewSize := s.align newSize
  match s.reserve alignedNewSize with
  | (.error e, s1) => (.error e, s1)
  | (.ok _, s1) =>
    if alloc alignedNewSize then
      if pNull then (.ok ⟨none, false⟩, s1)
      else
        match s1.free alignedSize with
        | (.ok _, s2) => (.ok ⟨some (min size newSize), true⟩, s2)
        | (.error e, s2) => (.error e, s2)
    else
      match s1.free alignedSize with
      | (.ok _, s2) =>
        match s2.release alignedNewSize with
        | (.ok _, s3) => (.error (.allocationFailure s.name "reallocate" newSize), s3)
        | (.error e, s3) => (.error e, s3)
      | (.error e, s2) => (.error e, s2)

/-- A freshly created pool state: zeroed tracker (optional capacity),
zeroed local usage, quota manager with `used = 0`. -/
def freshPool (name : String) (alignment : Int) (quota : Int)
    (capacity : Option Int) : MemoryPoolImpl :=
  { name := name
    alignment := alignment
    memoryUsageTracker :=
      { currentBytes := 0, maxBytes := 0, cumulativeBytes := 0
        numAllocs := 0, capacity := capacity }
    localMemoryUsage := { currentBytes := 0, maxBytes := 0 }
    memoryManager := { quota := quota, used := 0 } }

/-- Fuel-bounded floor of the base-2 logarithm.  `log2floor 64 size`
computes `63 - bits::countLeadingZeros(size)` for `1 ≤ size < 2 ^ 64`,
the exponent of the largest power of two that is at most `size`. -/
def log2floor : Nat → Nat → Nat
  | 0, _ => 0
  | fuel + 1, n => if n ≤ 1 then 0 else log2floor fuel (n / 2) + 1

/-- Translation of `MemoryPool::getPreferredSize(size)` on `size_t`: sizes below 8 become 8;
otherwise `lower = 1ULL << (63 - countLeadingZeros(size))`; a power of two
is returned as is; sizes at most `lower + lower / 2` round to that;
everything else returns `lower * 2`, a `size_t` product that wraps
modulo `2 ^ 64`. -/
def getPreferredSize (size : Nat) : Nat :=
  if size < 8 then 8
  else
    let lower := 2 ^ log2floor 64 size
    if lower = size then size
    else if size ≤ lower + lower / 2 then lower + lower / 2
    else lower * 2 % 2 ^ 64

/-- The claim's own rounding rule for `getPreferredSize`, written from the
spec's words with exact (unbounded) arithmetic: below 8 return 8;
otherwise with `pow` the largest power of two at most `size`, return
`size` if it is `pow`, else `pow * 1.5` (that is `3 * pow / 2`, exact
since `pow` is even here) if `size ≤ pow * 1.5`, else `pow * 2`. -/
def preferredSizeSpec (size : Nat) : Nat :=
  if size < 8 then 8
  else
    let pow := 2 ^ log2floor 64 size
    if size = pow then size
    else if 2 * size ≤ 3 * pow then 3 * pow / 2
    else pow * 2

/-- One entry of a pool's child registry: the child pool created by
`genChild(shared_from_this(), name, kind)`, keeping its parent's name. -/
structure ChildEntry where
  name : String
  kind : Kind
  parent : String
deriving DecidableEq, Repr

/-- The structural side of one `MemoryPool` node: identity, kind, parent
(`none` for a root), and the keyed child registry `children_`
(an `unordered_map`, modelled as an association list with unique keys). -/
structure MemoryPool where
  name : String
  kind : Kind
  parent : Option String
  children : List (String × ChildEntry)
deriving DecidableEq, Repr

/-- Modelled from the spec: `MemoryAllocator::alignmentCheck(0, alignment)`
(class not in this translation unit): the configured alignment must be a
power of two (`ConfigurationError` otherwise). -/
def alignmentOk (alignment : Nat) : Bool :=
  alignment != 0 && (alignment &&& (alignment - 1)) == 0

/-- The `MemoryPool` constructor: record name, kind, parent and check
`VELOX_CHECK(parent_ != nullptr || kind_ == Kind::kAggregate)` after the
alignment check; a fresh node starts with an empty child registry. -/
def MemoryPool.construct (name : String) (kind : Kind) (parent : Option String)
    (alignment : Nat) : Except MemErr MemoryPool :=
  if ¬ alignmentOk alignment then .error .configurationError
  else if ¬ (parent.isSome ∨ kind = Kind.aggregate) then .error .invariantViolation
  else .ok { name := name, kind := kind, parent := parent, children := [] }

/-- Translation of `MemoryPool::addChild(name, kind)`: with the registry write-locked,
`VELOX_CHECK_EQ(children_.count(name), 0)`; then create the child via
`genChild` (parent is `this`) and `emplace` it.  On the duplicate-name
raise the registry is untouched; on success the new child reference is
returned to the caller. -/
def MemoryPool.addChild (p : MemoryPool) (childName : String) (kind : Kind) :
    Except MemErr ChildEntry × MemoryPool :=
  if (p.children.lookup childName).isSome then
    (.error (.duplicateChild childName), p)
  else
    let child : ChildEntry := { name := childName, kind := kind, parent := p.name }
    (.ok child, { p with children := p.children ++ [(childName, child)] })

/-- Translation of `MemoryPool::dropChild(child)`: with the registry write-locked,
`ret = children_.erase(child->name())`, then `VELOX_CHECK_EQ(ret, 1)`;
erasing an absent key removes nothing and the check raises. -/
def MemoryPool.dropChild (p : MemoryPool) (childName : String) :
    Except MemErr Unit × MemoryPool :=
  let newChildren := p.children.eraseP (fun e => e.1 == childName)
  let ret := p.children.length - newChildren.length
  let p1 := { p with children := newChildren }
  if ret = 1 then (.ok (), p1) else (.error .invariantViolation, p1)

/-- Pool destruction: `~MemoryPoolImpl` runs first and, when
`FLAGS_velox_memory_leak_check_enabled` is set, raises via
`VELOX_CHECK_EQ(0, memoryUsageTracker_->currentBytes())` on leaked bytes;
then `~MemoryPool` raises via `VELOX_CHECK(children_.empty())` on a
non-empty child registry. -/
def destroyPool (leakCheckEnabled : Bool) (impl : MemoryPoolImpl)
    (node : MemoryPool) : Except MemErr Unit :=
  if leakCheckEnabled ∧ impl.memoryUsageTracker.currentBytes ≠ 0 then
    .error .invariantViolation
  else if node.children ≠ [] then .error .invariantViolation
  else .ok ()

/-- One matched pair of accounting operations (spec §8, property 1):
either an internal `reserve` followed by the matching `release` of the
same size, or an `allocate` (with the given allocator oracle answer)
followed by the matching `free` of the same size. -/
inductive PairOp where
  | reserveRelease (size : Int)
  | allocFree (allocOk : Bool) (size : Int)
deriving DecidableEq, Repr

/-- Run one matched pair on a pool state; `none` when any step fails. -/
def runPair (s : MemoryPoolImpl) (op : PairOp) : Option MemoryPoolImpl :=
  match op with
  | .reserveRelease size =>
    match s.reserve size with
    | (.ok _, s1) =>
      match s1.release size with
      | (.ok _, s2) => some s2
      | (.error _, _) => none
    | (.error _, _) => none
  | .allocFree allocOk size =>
    match s.allocate size (fun _ => allocOk) with
    | (.ok _, s1) =>
      match s1.free size with
      | (.ok _, s2) => some s2
      | (.error _, _) => none
    | (.error _, _) => none

/-- Run a sequence of matched pairs; `none` as soon as one operation
fails. -/
def runPairs (s : MemoryPoolImpl) : List PairOp → Option MemoryPoolImpl
  | [] => some s
  | op :: ops =>
    match runPair s op with
    | some s1 => runPairs s1 ops
    | none => none

/-! Helper lemmas about `sizeAlign`. -/

/-- Aligning an already-aligned size changes nothing. -/
theorem sizeAlign_idem (a s : Int) : sizeAlign a (sizeAlign a s) = sizeAlign a s := by
  unfold sizeAlign
  by_cases h : Int.tmod s a = 0
  · simp [h]
  · simp only [h, if_false]
    have hrep : s + a - Int.tmod s a = a * (Int.tdiv s a + 1) := by
      have := Int.tmod_add_tdiv s a
      ring_nf
      ring_nf at this
      omega
    rw [hrep, Int.mul_tmod_right]
    simp

/-- A positive size aligned with a positive alignment stays positive. -/
theorem sizeAlign_pos (a s : Int) (ha : 0 < a) (hs : 0 < s) : 0 < sizeAlign a s := by
  unfold sizeAlign
  have hlt := Int.tmod_lt_of_pos s ha
  by_cases h : Int.tmod s a = 0 <;> simp [h] <;> omega

/-! Helper lemmas about the child registry (an association list keyed by
unique names, standing for the `unordered_map`). -/

/-- Appending a fresh key makes it findable. -/
theorem lookup_append_fresh {β : Type} (l : List (String × β)) (n : String) (b : β)
    (h : l.lookup n = none) : (l ++ [(n, b)]).lookup n = some b := by
  induction l with
  | nil => simp [List.lookup]
  | cons hd tl ih =>
    rw [List.cons_append, List.lookup] at *
    cases hn : (n == hd.1) with
    | true => simp [hn] at h
    | false =>
      simp only [hn] at h ⊢
      exact ih h

/-- Erasing an absent key removes nothing. -/
theorem eraseP_of_lookup_none {β : Type} (l : List (String × β)) (n : String)
    (h : l.lookup n = none) : l.eraseP (fun e => e.1 == n) = l := by
  induction l with
  | nil => rfl
  | cons hd tl ih =>
    rw [List.lookup] at h
    rw [List.eraseP_cons]
    cases hn : (n == hd.1) with
    | true => simp [hn] at h
    | false =>
      have hn2 : (hd.1 == n) = false := by
        simp only [beq_eq_false_iff_ne, ne_eq, beq_iff_eq] at hn ⊢
        exact fun hk => hn hk.symm
      simp only [hn] at h
      simp [hn2, ih h]

/-- Keys not in the registry are not found. -/
theorem lookup_none_of_not_mem_keys {β : Type} (l : List (String × β)) (n : String)
    (h : n ∉ l.map Prod.fst) : l.lookup n = none := by
  induction l with
  | nil => rfl
  | cons hd tl ih =>
    rw [List.lookup]
    simp only [List.map_cons, List.mem_cons, not_or] at h
    have hn : (n == hd.1) = false := by simp [h.1]
    simp only [hn]
    exact ih h.2

/-- Erasing a present key shortens the registry by exactly one entry. -/
theorem length_eraseP_of_lookup_some {β : Type} (l : List (String × β)) (n : String)
    (h : (l.lookup n).isSome) :
    (l.eraseP (fun e => e.1 == n)).length + 1 = l.length := by
  induction l with
  | nil => simp [List.lookup] at h
  | cons hd tl ih =>
    rw [List.lookup] at h
    rw [List.eraseP_cons]
    cases hn : (n == hd.1) with
    | true =>
      have hn2 : (hd.1 == n) = true := by
        simp only [beq_iff_eq] at hn ⊢
        exact hn.symm
      simp [hn2]
    | false =>
      have hn2 : (hd.1 == n) = false := by
        simp only [beq_eq_false_iff_ne, ne_eq, beq_iff_eq] at hn ⊢
        exact fun hk => hn hk.symm
      simp only [hn] at h
      have := ih h
      simp only [hn2, cond_false, List.length_cons]
      omega

/-- After erasing a key from a registry with unique keys, the key is gone. -/
theorem lookup_eraseP_self {β : Type} (l : List (String × β)) (n : String)
    (hnd : (l.map Prod.fst).Nodup) :
    (l.eraseP (fun e => e.1 == n)).lookup n = none := by
  induction l with
  | nil => rfl
  | cons hd tl ih =>
    simp only [List.map_cons, List.nodup_cons] at hnd
    rw [List.eraseP_cons]
    cases hn : (hd.1 == n) with
    | true =>
      simp only [beq_iff_eq] at hn
      simpa using lookup_none_of_not_mem_keys tl n (hn ▸ hnd.1)
    | false =>
      have hn2 : (n == hd.1) = false := by
        simp only [beq_eq_false_iff_ne, ne_eq, beq_iff_eq] at hn ⊢
        exact fun hk => hn hk.symm
      simp only [cond_false, List.lookup, hn2]
      exact ih hnd.2

/-- Erasing one key leaves every other keys lookup unchanged. -/
theorem lookup_eraseP_other {β : Type} (l : List (String × β)) (n m : String)
    (hm : m ≠ n) : (l.eraseP (fun e => e.1 == n)).lookup m = l.lookup m := by
  induction l with
  | nil => rfl
  | cons hd tl ih =>
    rw [List.eraseP_cons]
    cases hn : (hd.1 == n) with
    | true =>
      simp only [beq_iff_eq] at hn
      rw [List.lookup]
      have : (m == hd.1) = false := by simp [hn ▸ hm]
      simp [this]
    | false =>
      simp only [cond_false, List.lookup]
      cases hmh : (m == hd.1) with
      | true => rfl
      | false => exact ih

/-! Helper lemmas describing the state a successful `reserve` / `release` /
`allocate` / `free` returns. -/

/-- A successful internal `reserve(size)` adds `size` to the three current
counters and changes nothing else that later steps depend on. -/
theorem reserve_ok_fields (s s1 : MemoryPoolImpl) (size : Int) (u : Unit)
    (h : s.reserve size = (.ok u, s1)) :
    s1.localMemoryUsage.currentBytes = s.localMemoryUsage.currentBytes + size ∧
    s1.memoryManager.used = s.memoryManager.used + size ∧
    s1.memoryManager.quota = s.memoryManager.quota ∧
    s1.memoryUsageTracker.currentBytes = s.memoryUsageTracker.currentBytes + size ∧
    s1.memoryUsageTracker.capacity = s.memoryUsageTracker.capacity ∧
    s1.alignment = s.alignment ∧
    s1.name = s.name := by
  unfold MemoryPoolImpl.reserve at h
  rcases hu : s.memoryUsageTracker.update size with _ | t
  · rw [hu] at h
    simp at h
  · rw [hu] at h
    unfold QuotaManager.reserve at h
    by_cases hq : s.memoryManager.used + size ≤ s.memoryManager.quota
    · simp only [hq, if_true] at h
      simp only [Prod.mk.injEq] at h
      obtain ⟨-, h2⟩ := h
      subst h2
      unfold MemoryUsageTracker.update at hu
      rcases hc : s.memoryUsageTracker.capacity with _ | cap <;> rw [hc] at hu
      · simp only [Option.some.injEq] at hu
        subst hu
        simp [MemoryUsage.incrementCurrentBytes, MemoryUsageTracker.commit, hc]
      · by_cases hcap : cap < s.memoryUsageTracker.currentBytes + size
        · simp [hcap] at hu
        · simp only [hcap, if_false, Option.some.injEq] at hu
          subst hu
          simp [MemoryUsage.incrementCurrentBytes, MemoryUsageTracker.commit, hc]
    · simp only [hq, if_false] at h
      simp only [MemoryPoolImpl.release] at h
      rcases hr : t.update (-size) with _ | t2 <;> simp [hr] at h

/-- A successful internal `release(size)` subtracts `size` from the three
current counters and changes nothing else that later steps depend on. -/
theorem release_ok_fields (s s1 : MemoryPoolImpl) (size : Int) (u : Unit)
    (h : s.release size = (.ok u, s1)) :
    s1.localMemoryUsage.currentBytes = s.localMemoryUsage.currentBytes - size ∧
    s1.memoryManager.used = s.memoryManager.used - size ∧
    s1.memoryManager.quota = s.memoryManager.quota ∧
    s1.memoryUsageTracker.currentBytes = s.memoryUsageTracker.currentBytes - size ∧
    s1.memoryUsageTracker.capacity = s.memoryUsageTracker.capacity ∧
    s1.alignment = s.alignment ∧
    s1.name = s.name := by
  simp only [MemoryPoolImpl.release] at h
  rcases hu : s.memoryUsageTracker.update (-size) with _ | t <;> rw [hu] at h
  · simp at h
  · simp only [Prod.mk.injEq] at h
    obtain ⟨-, h2⟩ := h
    subst h2
    unfold MemoryUsageTracker.update at hu
    rcases hc : s.memoryUsageTracker.capacity with _ | cap <;> simp only [hc] at hu
    · simp only [Option.some.injEq] at hu
      subst hu
      simp [MemoryUsage.incrementCurrentBytes, MemoryUsageTracker.commit,
        QuotaManager.release, hc]
      omega
    · by_cases hcap : cap < s.memoryUsageTracker.currentBytes + -size
      · simp [hcap] at hu
      · simp only [hcap, if_false, Option.some.injEq] at hu
        subst hu
        simp [MemoryUsage.incrementCurrentBytes, MemoryUsageTracker.commit,
          QuotaManager.release, hc]
        omega

/-- A successful `allocate(size)` adds the aligned size to the three
current counters. -/
theorem allocate_ok_fields (s s1 : MemoryPoolImpl) (size : Int) (u : Unit)
    (alloc : Int → Bool) (h : s.allocate size alloc = (.ok u, s1)) :
    s1.localMemoryUsage.currentBytes = s.localMemoryUsage.currentBytes + s.align size ∧
    s1.memoryManager.used = s.memoryManager.used + s.align size ∧
    s1.memoryManager.quota = s.memoryManager.quota ∧
    s1.memoryUsageTracker.currentBytes = s.memoryUsageTracker.currentBytes + s.align size ∧
    s1.memoryUsageTracker.capacity = s.memoryUsageTracker.capacity ∧
    s1.alignment = s.alignment ∧
    s1.name = s.name := by
  simp only [MemoryPoolImpl.allocate] at h
  rcases hres : s.reserve (s.align size) with ⟨r1, sr⟩
  rw [hres] at h
  cases r1 with
  | error e => simp at h
  | ok u1 =>
    by_cases hal : alloc (s.align size) = true
    · simp only [hal, if_true] at h
      simp only [Prod.mk.injEq] at h
      obtain ⟨-, h2⟩ := h
      subst h2
      exact reserve_ok_fields s _ (s.align size) u1 hres
    · simp only [Bool.not_eq_true] at hal
      simp only [hal] at h
      rcases hrel : sr.release (s.align size) with ⟨r2, sr2⟩
      rw [hrel] at h
      cases r2 <;> simp at h

/-! Helper lemmas about `log2floor`. -/

/-- The computed power of two is at most the input. -/
theorem pow_log2floor_le (fuel : Nat) : ∀ n : Nat, 1 ≤ n → 2 ^ log2floor fuel n ≤ n := by
  induction fuel with
  | zero =>
    intro n h
    simpa [log2floor] using h
  | succ fuel ih =>
    intro n h
    rw [log2floor]
    by_cases h1 : n ≤ 1
    · simp only [h1, if_true, pow_zero]
      omega
    · simp only [h1, if_false]
      have := ih (n / 2) (by omega)
      rw [pow_succ]
      omega

/-- The next power of two is above the input (given enough fuel). -/
theorem lt_pow_log2floor (fuel : Nat) : ∀ n : Nat, n < 2 ^ fuel →
    n < 2 ^ (log2floor fuel n + 1) := by
  induction fuel with
  | zero =>
    intro n h
    simp only [pow_zero] at h
    simp [log2floor]
    omega
  | succ fuel ih =>
    intro n h
    rw [log2floor]
    by_cases h1 : n ≤ 1
    · simp only [h1, if_true, pow_succ, pow_zero]
      omega
    · simp only [h1, if_false]
      have := ih (n / 2) (by rw [pow_succ] at h; omega)
      rw [pow_succ, pow_succ]
      rw [pow_succ] at this
      omega

/-- On inputs of at least 2 the floor logarithm is at least 1. -/
theorem one_le_log2floor (fuel n : Nat) (h : 2 ≤ n) : 1 ≤ log2floor (fuel + 1) n := by
  rw [log2floor]
  have h1 : ¬ n ≤ 1 := by omega
  simp [h1]

/-- C3 counterexample: at `size = 3 * 2^62 + 1` the largest power of two at
most `size` is `2^63` and the claim's rule demands `pow * 2 = 2^64`, but
the `size_t` multiplication in `getPreferredSize` wraps and the function
returns `0`. -/
theorem getPreferredSize_overflow_counterexample :
    getPreferredSize (3 * 2 ^ 62 + 1) = 0 ∧
    preferredSizeSpec (3 * 2 ^ 62 + 1) = 2 ^ 64 ∧
    getPreferredSize (3 * 2 ^ 62 + 1) ≠ preferredSizeSpec (3 * 2 ^ 62 + 1) := by
  refine ⟨by decide, by decide, by decide⟩

/-- C3 (amended): the claimed rounding rule (below 8 return 8; a power of
two is returned as is; at most `pow * 1.5` rounds to `pow * 1.5`; else
`pow * 2`) holds for every `size ≤ 3 * 2^62`; for larger `size_t` inputs
the final branch wraps modulo `2^64` and returns `0`; the quoted values
`f(0)=8, f(8)=8, f(12)=12, f(13)=16, f(24)=24, f(25)=32` all hold. -/
theorem getPreferredSize_amended (size : Nat) :
    (size ≤ 3 * 2 ^ 62 → getPreferredSize size = preferredSizeSpec size) ∧
    (3 * 2 ^ 62 < size → size < 2 ^ 64 → getPreferredSize size = 0) ∧
    getPreferredSize 0 = 8 ∧ getPreferredSize 8 = 8 ∧ getPreferredSize 12 = 12 ∧
    getPreferredSize 13 = 16 ∧ getPreferredSize 24 = 24 ∧ getPreferredSize 25 = 32 := by
  refine ⟨?_, ?_, by decide, by decide, by decide, by decide, by decide, by decide⟩
  · intro hle
    unfold getPreferredSize preferredSizeSpec
    by_cases h8 : size < 8
    · simp [h8]
    · simp only [h8, if_false]
      have hpowle := pow_log2floor_le 64 size (by omega)
      have hk1 : 1 ≤ log2floor 64 size := one_le_log2floor 63 size (by omega)
      set P := 2 ^ log2floor 64 size with hP
      have hm : P = 2 * 2 ^ (log2floor 64 size - 1) := by
        rw [hP]
        conv_lhs => rw [show log2floor 64 size = (log2floor 64 size - 1) + 1 by omega]
        rw [pow_succ]
        ring
      set m := 2 ^ (log2floor 64 size - 1) with hm'
      by_cases heq : P = size
      · rw [if_pos heq, if_pos heq.symm]
      · have hne2 : ¬ (size = P) := fun h => heq h.symm
        rw [if_neg heq, if_neg hne2]
        by_cases hmid : size ≤ P + P / 2
        · have h32 : 2 * size ≤ 3 * P := by omega
          rw [if_pos hmid, if_pos h32]
          omega
        · have h32 : ¬ (2 * size ≤ 3 * P) := by omega
          rw [if_neg hmid, if_neg h32]
          have hwrap : P * 2 < 2 ^ 64 := by omega
          rw [Nat.mod_eq_of_lt hwrap]
  · intro hgt hlt
    unfold getPreferredSize
    have h8 : ¬ size < 8 := by omega
    simp only [h8, if_false]
    have hup := lt_pow_log2floor 64 size hlt
    have hlow := pow_log2floor_le 64 size (by omega)
    set k := log2floor 64 size with hk
    have hk63 : k = 63 := by
      rcases Nat.lt_or_ge k 63 with h1 | h1
      · have h2 : (2 : Nat) ^ (k + 1) ≤ 2 ^ 63 := Nat.pow_le_pow_right (by omega) (by omega)
        have h3 : (2 : Nat) ^ 63 = 9223372036854775808 := by norm_num
        omega
      · rcases Nat.lt_or_ge k 64 with h2 | h2
        · omega
        · have h3 : (2 : Nat) ^ 64 ≤ 2 ^ k := Nat.pow_le_pow_right (by omega) h2
          have h4 : (2 : Nat) ^ 64 = 18446744073709551616 := by norm_num
          omega
    rw [hk63]
    have hne : ¬ ((2 : Nat) ^ 63 = size) := by
      have h3 : (2 : Nat) ^ 63 = 9223372036854775808 := by norm_num
      omega
    rw [if_neg hne]
    have hmid : ¬ (size ≤ 2 ^ 63 + 2 ^ 63 / 2) := by
      have h3 : (2 : Nat) ^ 63 = 9223372036854775808 := by norm_num
      omega
    rw [if_neg hmid]
    decide

/-- Witness for `getPreferredSize_amended` at concrete inputs. -/
theorem getPreferredSize_amended_witness :
    getPreferredSize 12 = preferredSizeSpec 12 ∧
    getPreferredSize (3 * 2 ^ 62 + 5) = 0 :=
  ⟨(getPreferredSize_amended 12).1 (by decide),
   (getPreferredSize_amended (3 * 2 ^ 62 + 5)).2.1 (by decide) (by decide)⟩

/-- A sample leaked pool state used by concrete witnesses: 5 tracked bytes
outstanding. -/
def leakImpl : MemoryPoolImpl :=
  { name := "leak", alignment := 8
    memoryUsageTracker :=
      { currentBytes := 5, maxBytes := 5, cumulativeBytes := 5
        numAllocs := 1, capacity := none }
    localMemoryUsage := { currentBytes := 5, maxBytes := 5 }
    memoryManager := { quota := 100, used := 5 } }

/-- A sample childless leaf node used by concrete witnesses. -/
def leafNode : MemoryPool :=
  { name := "leak", kind := Kind.leaf, parent := some "root", children := [] }

/-- C6: pool destruction always enforces an empty child registry; with
leak-checking enabled, nonzero tracked bytes make destruction fail; with
leak-checking disabled only the nonzero-bytes check is skipped, and
destruction succeeds exactly when the child registry is empty. -/
theorem destroyPool_checks (flag : Bool) (impl : MemoryPoolImpl) (node : MemoryPool) :
    (destroyPool flag impl node = .ok () → node.children = []) ∧
    (impl.memoryUsageTracker.currentBytes ≠ 0 →
      destroyPool true impl node = .error .invariantViolation) ∧
    (destroyPool false impl node = .ok () ↔ node.children = []) := by
  unfold destroyPool
  refine ⟨?_, ?_, ?_⟩
  · intro h
    split_ifs at h
    all_goals simp_all
  · intro h
    simp [h]
  · constructor
    · intro h
      split_ifs at h
      all_goals simp_all
    · intro h
      simp [h]

/-- Witness for `destroyPool_checks`: destroying `leakImpl` with
leak-checking on fails, and with leak-checking off (registry empty)
succeeds. -/
theorem destroyPool_checks_witness :
    destroyPool true leakImpl leafNode = .error .invariantViolation ∧
    destroyPool false leakImpl leafNode = .ok () :=
  ⟨(destroyPool_checks true leakImpl leafNode).2.1 (by decide),
   (destroyPool_checks false leakImpl leafNode).2.2.mpr (by decide)⟩

/-- A sample aggregate root with one registered child, used by concrete
witnesses. -/
def rootNode : MemoryPool :=
  { name := "root", kind := Kind.aggregate, parent := none
    children := [("a", { name := "a", kind := Kind.leaf, parent := "root" })] }

/-- C7: `addChild` with a name already registered fails with
`DuplicateChild` and returns with the registry (hence the existing child
and the registry size) untouched; with a fresh name it registers a child
whose parent is this pool and hands the child back. -/
theorem addChild_duplicate_or_register (p : MemoryPool) (n : String) (k : Kind) :
    ((p.children.lookup n).isSome →
      p.addChild n k = (.error (.duplicateChild n), p)) ∧
    (p.children.lookup n = none →
      (p.addChild n k).1 = .ok { name := n, kind := k, parent := p.name } ∧
      ((p.addChild n k).2).children.lookup n =
        some { name := n, kind := k, parent := p.name } ∧
      ((p.addChild n k).2).children.length = p.children.length + 1) := by
  unfold MemoryPool.addChild
  constructor
  · intro h
    simp [h]
  · intro h
    simp only [h, Option.isSome_none, Bool.false_eq_true, if_false]
    refine ⟨by trivial, ?_, by simp⟩
    simpa using lookup_append_fresh p.children n _ h

/-- Witness for `addChild_duplicate_or_register` on `rootNode`: the name
`a` is taken, the name `b` is fresh. -/
theorem addChild_duplicate_or_register_witness :
    rootNode.addChild "a" Kind.leaf = (.error (.duplicateChild "a"), rootNode) ∧
    (rootNode.addChild "b" Kind.leaf).1 =
      .ok { name := "b", kind := Kind.leaf, parent := "root" } :=
  ⟨(addChild_duplicate_or_register rootNode "a" Kind.leaf).1 (by decide),
   ((addChild_duplicate_or_register rootNode "b" Kind.leaf).2 (by decide)).1⟩

/-- C8: `dropChild` of an unregistered name raises the fatal
`InvariantViolation` check (and, the erase having removed nothing, the
registry is unchanged); dropping a registered name (keys are unique)
succeeds and removes exactly that one entry: the size shrinks by one, the
name is gone, every other name still resolves as before. -/
theorem dropChild_absent_or_remove (p : MemoryPool) (n : String) :
    (p.children.lookup n = none →
      p.dropChild n = (.error .invariantViolation, p)) ∧
    ((p.children.map Prod.fst).Nodup → (p.children.lookup n).isSome →
      (p.dropChild n).1 = .ok () ∧
      ((p.dropChild n).2).children.length + 1 = p.children.length ∧
      ((p.dropChild n).2).children.lookup n = none ∧
      ∀ m, m ≠ n → ((p.dropChild n).2).children.lookup m = p.children.lookup m) := by
  unfold MemoryPool.dropChild
  constructor
  · intro h
    have he := eraseP_of_lookup_none p.children n h
    simp [he]
  · intro hnd h
    have hlen := length_eraseP_of_lookup_some p.children n h
    have hret : p.children.length - (p.children.eraseP (fun e => e.1 == n)).length = 1 := by
      omega
    simp only [hret, if_pos rfl]
    refine ⟨rfl, by simpa using hlen, ?_, ?_⟩
    · simpa using lookup_eraseP_self p.children n hnd
    · intro m hm
      simpa using lookup_eraseP_other p.children n m hm

/-- Witness for `dropChild_absent_or_remove` on `rootNode`: the name `b`
is absent, the name `a` is present. -/
theorem dropChild_absent_or_remove_witness :
    rootNode.dropChild "b" = (.error .invariantViolation, rootNode) ∧
    (rootNode.dropChild "a").1 = .ok () :=
  ⟨(dropChild_absent_or_remove rootNode "b").1 (by decide),
   ((dropChild_absent_or_remove rootNode "a").2 (by decide) (by decide)).1⟩

/-- C9: with a valid alignment, constructing a pool with no parent and
kind Leaf fails the constructor check, any successfully constructed
parentless pool is Aggregate, and `kind` / `parent` are never changed by
the registry operations (they are fixed at construction). -/
theorem construct_root_aggregate (name : String) (kind : Kind) (a : Nat)
    (ha : alignmentOk a = true) :
    (kind = Kind.leaf →
      MemoryPool.construct name kind none a = .error .invariantViolation) ∧
    (∀ p, MemoryPool.construct name kind none a = .ok p →
      p.kind = Kind.aggregate ∧ p.parent = none ∧ p.name = name) ∧
    (∀ (q : MemoryPool) (n : String) (k : Kind),
      ((q.addChild n k).2).kind = q.kind ∧ ((q.addChild n k).2).parent = q.parent ∧
      ((q.dropChild n).2).kind = q.kind ∧ ((q.dropChild n).2).parent = q.parent) := by
  refine ⟨?_, ?_, ?_⟩
  · intro hk
    subst hk
    simp [MemoryPool.construct, ha]
  · intro p hp
    unfold MemoryPool.construct at hp
    simp only [ha] at hp
    cases kind with
    | leaf => simp at hp
    | aggregate =>
      simp at hp
      subst hp
      exact ⟨rfl, rfl, rfl⟩
  · intro q n k
    unfold MemoryPool.addChild MemoryPool.dropChild
    by_cases h : (q.children.lookup n).isSome <;> simp [h] <;> split_ifs <;> simp

/-- Witness for `construct_root_aggregate` at alignment 16. -/
theorem construct_root_aggregate_witness :
    MemoryPool.construct "r" Kind.leaf none 16 = .error .invariantViolation ∧
    ((rootNode.addChild "b" Kind.leaf).2).kind = rootNode.kind :=
  ⟨(construct_root_aggregate "r" Kind.leaf 16 (by decide)).1 rfl,
   ((construct_root_aggregate "r" Kind.leaf 16 (by decide)).2.2
      rootNode "b" Kind.leaf).1⟩

/-- C2: when the quota manager denies the reservation inside internal
`reserve(size)` (the tracker update itself having gone through), the
rollback `release(size)` restores the tracker's current bytes and
`localUsage.current` to their pre-call values and the call fails with
`CapacityExceeded` carrying the configured quota.  (The tracker's
monotonic statistics — `cumulativeBytes`, `numAllocs`, and a possibly
raised `maxBytes` — keep the trace of the undone update, as the spec's
tracker model dictates.) -/
theorem reserve_quota_denied (s : MemoryPoolImpl) (size : Int)
    (hsz : 0 ≤ size)
    (htr : (s.memoryUsageTracker.update size).isSome)
    (hq : s.memoryManager.quota < s.memoryManager.used + size) :
    (s.reserve size).1 = .error (.capacityExceeded s.memoryManager.quota) ∧
    ((s.reserve size).2).memoryUsageTracker.currentBytes =
      s.memoryUsageTracker.currentBytes ∧
    ((s.reserve size).2).localMemoryUsage.currentBytes =
      s.localMemoryUsage.currentBytes := by
  obtain ⟨t, ht⟩ := Option.isSome_iff_exists.mp htr
  have hq' : ¬ (s.memoryManager.used + size ≤ s.memoryManager.quota) := by omega
  have ht2 := ht
  unfold MemoryUsageTracker.update at ht2
  have htc : t = s.memoryUsageTracker.commit size := by
    rcases hc : s.memoryUsageTracker.capacity with _ | cap <;> rw [hc] at ht2
    · exact (Option.some.injEq .. ▸ ht2).symm
    · by_cases hcap : cap < s.memoryUsageTracker.currentBytes + size
      · simp [hcap] at ht2
      · simp only [hcap, if_false, Option.some.injEq] at ht2
        exact ht2.symm
  have hnocap : ∀ cap, s.memoryUsageTracker.capacity = some cap →
      ¬ (cap < s.memoryUsageTracker.currentBytes + size) := by
    intro cap hc
    rw [hc] at ht2
    by_cases hcap : cap < s.memoryUsageTracker.currentBytes + size
    · simp [hcap] at ht2
    · exact hcap
  have htt : t.update (-size) = some (t.commit (-size)) := by
    unfold MemoryUsageTracker.update
    rcases hc : t.capacity with _ | cap
    · rfl
    · have hc' : s.memoryUsageTracker.capacity = some cap := by
        rw [htc] at hc
        simpa [MemoryUsageTracker.commit] using hc
      have := hnocap cap hc'
      have hcur : t.currentBytes = s.memoryUsageTracker.currentBytes + size := by
        rw [htc]
        simp [MemoryUsageTracker.commit]
      have hx : ¬ (cap < t.currentBytes + -size) := by omega
      simp [hx]
  simp only [MemoryPoolImpl.reserve, ht, QuotaManager.reserve, hq', if_false,
    MemoryPoolImpl.release, htt]
  refine ⟨by trivial, ?_, ?_⟩
  · rw [htc]
    simp [MemoryUsageTracker.commit]
  · simp [MemoryUsage.incrementCurrentBytes]

/-- A sample leaf pool with 8 bytes outstanding, alignment 8 and a large
quota, used by concrete witnesses. -/
def samplePool : MemoryPoolImpl :=
  { name := "pool", alignment := 8
    memoryUsageTracker :=
      { currentBytes := 8, maxBytes := 8, cumulativeBytes := 8
        numAllocs := 1, capacity := none }
    localMemoryUsage := { currentBytes := 8, maxBytes := 8 }
    memoryManager := { quota := 1000, used := 8 } }

/-- Witness for `reserve_quota_denied`: asking `samplePool` for 2000 bytes
overflows the quota of 1000 and rolls back. -/
theorem reserve_quota_denied_witness :
    (samplePool.reserve 2000).1 = .error (.capacityExceeded 1000) ∧
    ((samplePool.reserve 2000).2).memoryUsageTracker.currentBytes = 8 ∧
    ((samplePool.reserve 2000).2).localMemoryUsage.currentBytes = 8 :=
  reserve_quota_denied samplePool 2000 (by decide) (by decide) (by decide)

/-- With no local cap configured, internal `release(size)` succeeds and its
result state is the evident one. -/
theorem release_of_capacity_none (s : MemoryPoolImpl) (size : Int)
    (hcap : s.memoryUsageTracker.capacity = none) :
    s.release size = (.ok (), { s with
      memoryUsageTracker := s.memoryUsageTracker.commit (-size)
      localMemoryUsage := s.localMemoryUsage.incrementCurrentBytes (-size)
      memoryManager := s.memoryManager.release size }) := by
  simp only [MemoryPoolImpl.release, MemoryUsageTracker.update, hcap]

/-- With no local cap configured and room under the quota, internal
`reserve(size)` succeeds and its result state is the evident one. -/
theorem reserve_granted (s : MemoryPoolImpl) (size : Int)
    (hcap : s.memoryUsageTracker.capacity = none)
    (hq : s.memoryManager.used + size ≤ s.memoryManager.quota) :
    s.reserve size = (.ok (), { s with
      memoryUsageTracker := s.memoryUsageTracker.commit size
      localMemoryUsage := s.localMemoryUsage.incrementCurrentBytes size
      memoryManager := { quota := s.memoryManager.quota
                         used := s.memoryManager.used + size } }) := by
  simp only [MemoryPoolImpl.reserve, MemoryUsageTracker.update, hcap,
    QuotaManager.reserve, hq, if_true]

/-- C5: `allocate(size)` reserves the aligned size and asks the allocator
for exactly the aligned size; when the allocator answers null, the
reservation is fully released — all three current-byte counters return to
their pre-call values — and the call fails with `AllocationFailure`
carrying the pool's identity, the operation name and the requested size;
when the allocator answers with a buffer, the call returns it with the
aligned size charged. -/
theorem allocate_failure_rollback (s : MemoryPoolImpl) (size : Int)
    (hcap : s.memoryUsageTracker.capacity = none)
    (hq : s.memoryManager.used + s.align size ≤ s.memoryManager.quota) :
    (∀ alloc : Int → Bool, alloc (s.align size) = false →
      (s.allocate size alloc).1 =
        .error (.allocationFailure s.name "allocate" size) ∧
      ((s.allocate size alloc).2).memoryUsageTracker.currentBytes =
        s.memoryUsageTracker.currentBytes ∧
      ((s.allocate size alloc).2).localMemoryUsage.currentBytes =
        s.localMemoryUsage.currentBytes ∧
      ((s.allocate size alloc).2).memoryManager.used = s.memoryManager.used) ∧
    (∀ alloc : Int → Bool, alloc (s.align size) = true →
      (s.allocate size alloc).1 = .ok () ∧
      ((s.allocate size alloc).2).memoryUsageTracker.currentBytes =
        s.memoryUsageTracker.currentBytes + s.align size ∧
      ((s.allocate size alloc).2).localMemoryUsage.currentBytes =
        s.localMemoryUsage.currentBytes + s.align size ∧
      ((s.allocate size alloc).2).memoryManager.used =
        s.memoryManager.used + s.align size) := by
  have hres := reserve_granted s (s.align size) hcap hq
  constructor
  · intro alloc halloc
    have hrel := release_of_capacity_none
      { s with
        memoryUsageTracker := s.memoryUsageTracker.commit (s.align size)
        localMemoryUsage := s.localMemoryUsage.incrementCurrentBytes (s.align size)
        memoryManager := { quota := s.memoryManager.quota
                           used := s.memoryManager.used + s.align size } }
      (s.align size) (by simp [MemoryUsageTracker.commit, hcap])
    simp only [MemoryPoolImpl.allocate, hres, halloc, Bool.false_eq_true,
      if_false, hrel]
    refine ⟨by trivial, ?_, ?_, ?_⟩
    · simp [MemoryUsageTracker.commit]
    · simp [MemoryUsage.incrementCurrentBytes]
    · simp [QuotaManager.release]
  · intro alloc halloc
    simp only [MemoryPoolImpl.allocate, hres, halloc, if_true]
    refine ⟨by trivial, ?_, ?_, ?_⟩
    · simp [MemoryUsageTracker.commit]
    · simp [MemoryUsage.incrementCurrentBytes]
    · simp

/-- Witness for `allocate_failure_rollback` on `samplePool` with size 5
(aligned to 8). -/
theorem allocate_failure_rollback_witness :
    (samplePool.allocate 5 (fun _ => false)).1 =
      .error (.allocationFailure "pool" "allocate" 5) ∧
    ((samplePool.allocate 5 (fun _ => false)).2).localMemoryUsage.currentBytes = 8 ∧
    ((samplePool.allocate 5 (fun _ => true)).2).localMemoryUsage.currentBytes = 16 := by
  have h := allocate_failure_rollback samplePool 5 (by decide) (by decide)
  exact ⟨(h.1 (fun _ => false) rfl).1, (h.1 (fun _ => false) rfl).2.2.1,
    (h.2 (fun _ => true) rfl).2.2.1⟩

/-- C10: a successful `reallocate(nullptr, oldSize, newSize)` returns the
new buffer having copied nothing and having neither freed nor released
anything for `oldSize`: all three current-byte counters grow by exactly
`align(newSize)`, which (for positive `oldSize` and alignment) differs
from the `align(newSize) - align(oldSize)` delta of the non-null case. -/
theorem reallocate_null_no_copy (s : MemoryPoolImpl) (size newSize : Int)
    (hcap : s.memoryUsageTracker.capacity = none)
    (hq : s.memoryManager.used + s.align newSize ≤ s.memoryManager.quota)
    (ha : 0 < s.alignment) (hs : 0 < size) :
    ∀ alloc : Int → Bool, alloc (s.align newSize) = true →
      (s.reallocate true size newSize alloc).1 = .ok ⟨none, false⟩ ∧
      ((s.reallocate true size newSize alloc).2).localMemoryUsage.currentBytes =
        s.localMemoryUsage.currentBytes + s.align newSize ∧
      ((s.reallocate true size newSize alloc).2).memoryManager.used =
        s.memoryManager.used + s.align newSize ∧
      ((s.reallocate true size newSize alloc).2).memoryUsageTracker.currentBytes =
        s.memoryUsageTracker.currentBytes + s.align newSize ∧
      s.align newSize ≠ s.align newSize - s.align size := by
  intro alloc halloc
  have hres := reserve_granted s (s.align newSize) hcap hq
  simp only [MemoryPoolImpl.reallocate, hres, halloc, if_true]
  refine ⟨by trivial, ?_, ?_, ?_, ?_⟩
  · simp [MemoryUsage.incrementCurrentBytes]
  · simp
  · simp [MemoryUsageTracker.commit]
  · have := sizeAlign_pos s.alignment size ha hs
    unfold MemoryPoolImpl.align at *
    omega

/-- Witness for `reallocate_null_no_copy` on `samplePool`. -/
theorem reallocate_null_no_copy_witness :
    (samplePool.reallocate true 8 16 (fun _ => true)).1 = .ok ⟨none, false⟩ ∧
    ((samplePool.reallocate true 8 16 (fun _ => true)).2).localMemoryUsage.currentBytes =
      24 := by
  have h := reallocate_null_no_copy samplePool 8 16 (by decide) (by decide)
    (by decide) (by decide) (fun _ => true) rfl
  exact ⟨h.1, h.2.1⟩

/-- C1 counterexample: on the allocator-failure path `reallocate` frees the
old buffer (`free(p, alignedSize)`) before undoing the new reservation, so
with `oldSize = 8`, `newSize = 16` on `samplePool` (8 bytes charged) the
usage ends at 0: the net change is `-8`, which is neither the claimed
`align(newSize) - align(oldSize) = 8` nor a restoration of the pre-call
value `8`. -/
theorem reallocate_failure_counterexample :
    (samplePool.reallocate false 8 16 (fun _ => false)).1 =
      .error (.allocationFailure "pool" "reallocate" 16) ∧
    ((samplePool.reallocate false 8 16 (fun _ => false)).2).localMemoryUsage.currentBytes -
      samplePool.localMemoryUsage.currentBytes = -8 ∧
    samplePool.align 16 - samplePool.align 8 = 8 ∧
    ((samplePool.reallocate false 8 16 (fun _ => false)).2).localMemoryUsage.currentBytes -
      samplePool.localMemoryUsage.currentBytes ≠
      samplePool.align 16 - samplePool.align 8 ∧
    ((samplePool.reallocate false 8 16 (fun _ => false)).2).localMemoryUsage.currentBytes ≠
      samplePool.localMemoryUsage.currentBytes := by
  refine ⟨by decide, by decide, by decide, by decide, by decide⟩

/-- Internal `release` can only raise the local-cap failure. -/
theorem release_error_shape (s s1 : MemoryPoolImpl) (size : Int) (e : MemErr)
    (h : s.release size = (.error e, s1)) : e = .localCapExceeded := by
  simp only [MemoryPoolImpl.release] at h
  rcases hu : s.memoryUsageTracker.update (-size) with _ | t <;> rw [hu] at h
  · simp only [Prod.mk.injEq, Except.error.injEq] at h
    exact h.1.symm
  · simp at h

/-- `free` can only raise the local-cap failure. -/
theorem free_error_shape (s s1 : MemoryPoolImpl) (size : Int) (e : MemErr)
    (h : s.free size = (.error e, s1)) : e = .localCapExceeded :=
  release_error_shape s s1 (s.align size) e h

/-- Internal `reserve` can only raise the local-cap failure or
`CapacityExceeded` with the configured quota. -/
theorem reserve_error_shape (s s1 : MemoryPoolImpl) (size : Int) (e : MemErr)
    (h : s.reserve size = (.error e, s1)) :
    e = .localCapExceeded ∨ e = .capacityExceeded s.memoryManager.quota := by
  simp only [MemoryPoolImpl.reserve] at h
  rcases hu : s.memoryUsageTracker.update size with _ | t <;> rw [hu] at h
  · simp only [Prod.mk.injEq, Except.error.injEq] at h
    exact .inl h.1.symm
  · simp only [QuotaManager.reserve] at h
    by_cases hq : s.memoryManager.used + size ≤ s.memoryManager.quota
    · simp [hq] at h
    · simp only [hq, if_false] at h
      simp only [MemoryPoolImpl.release] at h
      rcases hr : t.update (-size) with _ | t2 <;> rw [hr] at h <;>
        simp only [Prod.mk.injEq, Except.error.injEq] at h
      · exact .inl h.1.symm
      · exact .inr h.1.symm

/-- C1 (amended): for `reallocate(ptr, oldSize, newSize)` with non-null
`ptr`, the success path changes all three current-byte counters by exactly
`align(newSize) - align(oldSize)` (after copying `min(oldSize, newSize)`
bytes and freeing the old buffer); the allocator-failure path frees the
old buffer and undoes the new reservation, so the counters change by
`-align(oldSize)` — the pre-call accounting state is not restored unless
`align(oldSize)` is zero. -/
theorem reallocate_net_change (s : MemoryPoolImpl) (size newSize : Int) :
    (∀ (alloc : Int → Bool) (res : ReallocResult) (s1 : MemoryPoolImpl),
      s.reallocate false size newSize alloc = (.ok res, s1) →
      res = ⟨some (min size newSize), true⟩ ∧
      s1.localMemoryUsage.currentBytes =
        s.localMemoryUsage.currentBytes + (s.align newSize - s.align size) ∧
      s1.memoryManager.used =
        s.memoryManager.used + (s.align newSize - s.align size) ∧
      s1.memoryUsageTracker.currentBytes =
        s.memoryUsageTracker.currentBytes + (s.align newSize - s.align size)) ∧
    (∀ (alloc : Int → Bool) (s1 : MemoryPoolImpl),
      s.reallocate false size newSize alloc =
        (.error (.allocationFailure s.name "reallocate" newSize), s1) →
      s1.localMemoryUsage.currentBytes =
        s.localMemoryUsage.currentBytes - s.align size ∧
      s1.memoryManager.used = s.memoryManager.used - s.align size ∧
      s1.memoryUsageTracker.currentBytes =
        s.memoryUsageTracker.currentBytes - s.align size) := by
  constructor
  · intro alloc res s1 h
    simp only [MemoryPoolImpl.reallocate] at h
    rcases hres : s.reserve (s.align newSize) with ⟨r1, sr⟩
    rw [hres] at h
    cases r1 with
    | error e => simp at h
    | ok u1 =>
      by_cases hal : alloc (s.align newSize) = true
      · simp only [hal, if_true, Bool.false_eq_true, if_false] at h
        rcases hfree : sr.free (s.align size) with ⟨r2, sf⟩
        rw [hfree] at h
        cases r2 with
        | error e => simp at h
        | ok u2 =>
          simp only [Prod.mk.injEq, Except.ok.injEq] at h
          obtain ⟨hres', hs1⟩ := h
          subst hs1
          obtain ⟨hl, hu, -, ht, -, hali, -⟩ :=
            reserve_ok_fields s sr (s.align newSize) u1 hres
          have hfa : sr.align (s.align size) = s.align size := by
            unfold MemoryPoolImpl.align
            rw [hali]
            exact sizeAlign_idem s.alignment size
          simp only [MemoryPoolImpl.free, hfa] at hfree
          obtain ⟨hl2, hu2, -, ht2, -, -, -⟩ :=
            release_ok_fields sr sf (s.align size) u2 hfree
          exact ⟨hres'.symm, by omega, by omega, by omega⟩
      · simp only [Bool.not_eq_true] at hal
        simp only [hal, Bool.false_eq_true, if_false] at h
        rcases hfree : sr.free (s.align size) with ⟨r2, sf⟩
        rw [hfree] at h
        cases r2 with
        | error e => simp at h
        | ok u2 =>
          dsimp only at h
          rcases hrel : sf.release (s.align newSize) with ⟨r3, sr3⟩
          rw [hrel] at h
          cases r3 <;> simp at h
  · intro alloc s1 h
    simp only [MemoryPoolImpl.reallocate] at h
    rcases hres : s.reserve (s.align newSize) with ⟨r1, sr⟩
    rw [hres] at h
    cases r1 with
    | error e =>
      have hsh := reserve_error_shape s sr (s.align newSize) e hres
      simp only [Prod.mk.injEq, Except.error.injEq] at h
      obtain ⟨he, -⟩ := h
      subst he
      rcases hsh with h1 | h1 <;> exact absurd h1 (by simp)
    | ok u1 =>
      by_cases hal : alloc (s.align newSize) = true
      · simp only [hal, if_true, Bool.false_eq_true, if_false] at h
        rcases hfree : sr.free (s.align size) with ⟨r2, sf⟩
        rw [hfree] at h
        cases r2 with
        | error e =>
          have hsh := free_error_shape sr sf (s.align size) e hfree
          simp only [Prod.mk.injEq, Except.error.injEq] at h
          obtain ⟨he, -⟩ := h
          subst he
          exact absurd hsh (by simp)
        | ok u2 => simp at h
      · simp only [Bool.not_eq_true] at hal
        simp only [hal, Bool.false_eq_true, if_false] at h
        rcases hfree : sr.free (s.align size) with ⟨r2, sf⟩
        rw [hfree] at h
        cases r2 with
        | error e =>
          have hsh := free_error_shape sr sf (s.align size) e hfree
          simp only [Prod.mk.injEq, Except.error.injEq] at h
          obtain ⟨he, -⟩ := h
          subst he
          exact absurd hsh (by simp)
        | ok u2 =>
          dsimp only at h
          rcases hrel : sf.release (s.align newSize) with ⟨r3, sr3⟩
          rw [hrel] at h
          cases r3 with
          | error e =>
            have hsh := release_error_shape sf sr3 (s.align newSize) e hrel
            simp only [Prod.mk.injEq, Except.error.injEq] at h
            obtain ⟨he, -⟩ := h
            subst he
            exact absurd hsh (by simp)
          | ok u3 =>
            simp only [Prod.mk.injEq, Except.error.injEq] at h
            obtain ⟨-, hs1⟩ := h
            subst hs1
            obtain ⟨hl, hu, -, ht, -, hali, -⟩ :=
              reserve_ok_fields s sr (s.align newSize) u1 hres
            have hfa : sr.align (s.align size) = s.align size := by
              unfold MemoryPoolImpl.align
              rw [hali]
              exact sizeAlign_idem s.alignment size
            simp only [MemoryPoolImpl.free, hfa] at hfree
            obtain ⟨hl2, hu2, -, ht2, -, -, -⟩ :=
              release_ok_fields sr sf (s.align size) u2 hfree
            obtain ⟨hl3, hu3, -, ht3, -, -, -⟩ :=
              release_ok_fields sf sr3 (s.align newSize) u3 hrel
            exact ⟨by omega, by omega, by omega⟩

/-- Witness for `reallocate_net_change` on `samplePool`: growing 8 bytes
to 16 moves usage from 8 to 16; the failing path moves it from 8 to 0. -/
theorem reallocate_net_change_witness :
    (16 : Int) = samplePool.localMemoryUsage.currentBytes +
      (samplePool.align 16 - samplePool.align 8) ∧
    (0 : Int) = samplePool.localMemoryUsage.currentBytes - samplePool.align 8 := by
  have h := reallocate_net_change samplePool 8 16
  refine ⟨?_, ?_⟩
  · have h1 := (h.1 (fun _ => true) ⟨some (min 8 16), true⟩
      { name := "pool", alignment := 8
        memoryUsageTracker :=
          { currentBytes := 16, maxBytes := 24, cumulativeBytes := 24
            numAllocs := 2, capacity := none }
        localMemoryUsage := { currentBytes := 16, maxBytes := 24 }
        memoryManager := { quota := 1000, used := 16 } } (by decide)).2.1
    simpa using h1
  · have h2 := (h.2 (fun _ => false)
      { name := "pool", alignment := 8
        memoryUsageTracker :=
          { currentBytes := 0, maxBytes := 24, cumulativeBytes := 24
            numAllocs := 2, capacity := none }
        localMemoryUsage := { currentBytes := 0, maxBytes := 24 }
        memoryManager := { quota := 1000, used := 0 } } (by decide)).1
    simpa using h2

/-- One successful matched pair leaves `localUsage.current` and the quota
manager's `used` exactly where they were. -/
theorem runPair_preserve (s s2 : MemoryPoolImpl) (op : PairOp)
    (h : runPair s op = some s2) :
    s2.localMemoryUsage.currentBytes = s.localMemoryUsage.currentBytes ∧
    s2.memoryManager.used = s.memoryManager.used := by
  cases op with
  | reserveRelease size =>
    simp only [runPair] at h
    rcases h1 : s.reserve size with ⟨r1, sa⟩
    rw [h1] at h
    cases r1 with
    | error e => simp at h
    | ok u1 =>
      dsimp only at h
      rcases h2 : sa.release size with ⟨r2, sb⟩
      rw [h2] at h
      cases r2 with
      | error e => simp at h
      | ok u2 =>
        simp only [Option.some.injEq] at h
        subst h
        obtain ⟨hl1, hu1, -, -, -, -, -⟩ := reserve_ok_fields s sa size u1 h1
        obtain ⟨hl2, hu2, -, -, -, -, -⟩ := release_ok_fields sa sb size u2 h2
        omega
  | allocFree allocOk size =>
    simp only [runPair] at h
    rcases h1 : s.allocate size (fun _ => allocOk) with ⟨r1, sa⟩
    rw [h1] at h
    cases r1 with
    | error e => simp at h
    | ok u1 =>
      dsimp only at h
      rcases h2 : sa.free size with ⟨r2, sb⟩
      rw [h2] at h
      cases r2 with
      | error e => simp at h
      | ok u2 =>
        simp only [Option.some.injEq] at h
        subst h
        obtain ⟨hl1, hu1, -, -, -, hali, -⟩ :=
          allocate_ok_fields s sa size u1 (fun _ => allocOk) h1
        have hfa : sa.align size = s.align size := by
          unfold MemoryPoolImpl.align
          rw [hali]
        simp only [MemoryPoolImpl.free, hfa] at h2
        obtain ⟨hl2, hu2, -, -, -, -, -⟩ :=
          release_ok_fields sa sb (s.align size) u2 h2
        omega

/-- A successful sequence of matched pairs preserves `localUsage.current`
and the quota manager's `used`. -/
theorem runPairs_preserve (ops : List PairOp) : ∀ s s2 : MemoryPoolImpl,
    runPairs s ops = some s2 →
    s2.localMemoryUsage.currentBytes = s.localMemoryUsage.currentBytes ∧
    s2.memoryManager.used = s.memoryManager.used := by
  induction ops with
  | nil =>
    intro s s2 h
    simp only [runPairs, Option.some.injEq] at h
    subst h
    exact ⟨rfl, rfl⟩
  | cons op ops ih =>
    intro s s2 h
    simp only [runPairs] at h
    rcases h1 : runPair s op with _ | sa <;> rw [h1] at h
    · simp at h
    · obtain ⟨ha, hb⟩ := runPair_preserve s sa op h1
      obtain ⟨hc, hd⟩ := ih sa s2 h
      omega

/-- C4: any sequence of matched `reserve`/`release` (or `allocate`/`free`
with the same size) pairs in which every operation succeeds leaves a
freshly created pool with `localUsage.current == 0` and the quota
manager's `used == 0`. -/
theorem matched_pairs_balance (ops : List PairOp) (name : String)
    (alignment quota : Int) (capacity : Option Int) (s2 : MemoryPoolImpl)
    (h : runPairs (freshPool name alignment quota capacity) ops = some s2) :
    s2.localMemoryUsage.currentBytes = 0 ∧ s2.memoryManager.used = 0 := by
  have hp := runPairs_preserve ops (freshPool name alignment quota capacity) s2 h
  simpa [freshPool] using hp

/-- Witness for `matched_pairs_balance`: one reserve/release pair of 16
bytes then one allocate/free pair of 5 bytes on a fresh pool of alignment
8 and quota 100. -/
theorem matched_pairs_balance_witness :
    ({ name := "p", alignment := 8
       memoryUsageTracker :=
         { currentBytes := 0, maxBytes := 16, cumulativeBytes := 24
           numAllocs := 2, capacity := none }
       localMemoryUsage := { currentBytes := 0, maxBytes := 16 }
       memoryManager := { quota := 100, used := 0 } } :
        MemoryPoolImpl).localMemoryUsage.currentBytes = 0 ∧
    ({ name := "p", alignment := 8
       memoryUsageTracker :=
         { currentBytes := 0, maxBytes := 16, cumulativeBytes := 24
           numAllocs := 2, capacity := none }
       localMemoryUsage := { currentBytes := 0, maxBytes := 16 }
       memoryManager := { quota := 100, used := 0 } } :
        MemoryPoolImpl).memoryManager.used = 0 :=
  matched_pairs_balance [.reserveRelease 16, .allocFree true 5] "p" 8 100 none
    _ (by decide)
